import Mathlib

/-!
Shallow embedding of the per-ticker analysis pipeline of `src/app.py`
(the Streamlit "Incognitos Analysis Chart" scanner).

Conventions of the embedding:

* Python / pandas floating-point cells are modelled as `EF := Option ℚ`,
  where `none` stands for IEEE NaN (missing data, failed numeric coercion,
  or an undefined indicator cell) and `some q` for an ordinary finite value.
  The claims under study hinge on NaN propagation and branch structure, not
  on binary rounding of IEEE doubles, so exact rationals replace doubles.
* NaN semantics mirrored from Python: every comparison with NaN is false
  except `!=`, which is true; arithmetic on NaN yields NaN;
  `min(100, nan)` keeps its first argument `100` because `nan < 100`
  is false; `round(nan, k)` is NaN.
* `round(x, k)` (Python round-half-to-even at `k` decimal digits) is
  `pyRoundAt k`.
* A pandas DataFrame row is a `Bar`; column presence is tracked by the
  `has...` flags of `Frame` (`"Low" in data.columns` etc.).
* Column assignment `data["EMA_20"] = safe_indicator(...)` aligns the
  returned series (indexed by the dropna-ed close index, or by a fresh
  integer range in the all-NaN case) with the frame index; `alignToValid`
  reproduces this: the i-th produced value lands on the i-th row whose
  close is defined, every other row gets NaN.  In the all-NaN case the
  values are NaN either way, so the range-index mismatch is immaterial.
* Exceptions are modelled with `Except` / `Option`: the per-ticker
  `try/except` of the main loop is the `Except Err` result of
  `processTicker`, and the indicator-library failure caught inside
  `safe_indicator` is the `none` of `indCore` (reachable exactly for the
  degenerate window 0, where pandas `ewm(span=0)` raises and `1/window`
  raises ZeroDivisionError; the windows used by the app are 20, 50, 14).
-/

set_option maxRecDepth 100000

namespace AnalysisChart

/-- A float cell: `none` is NaN, `some q` a finite value. -/
abbrev EF := Option ℚ

/-- NaN-propagating binary arithmetic on float cells. -/
def efBin (op : ℚ → ℚ → ℚ) : EF → EF → EF
  | some a, some b => some (op a b)
  | _, _ => none

/-- Float subtraction, NaN-propagating. -/
def efSub : EF → EF → EF := efBin Sub.sub

/-- Float multiplication, NaN-propagating. -/
def efMul : EF → EF → EF := efBin Mul.mul

/-- Float `abs`, NaN-propagating. -/
def efAbs : EF → EF := Option.map abs

/-- Float division.  NaN operands give NaN.  A zero divisor gives `none` as
well: the only division in the pipeline is guarded by `last_close != 0`, so
this subcase is unreachable there; in `safe_zscore` the zero-divisor case is
exactly the 0/0 = NaN of a zero standard deviation. -/
def efDiv : EF → EF → EF
  | some a, some b => if b = 0 then none else some (a / b)
  | _, _ => none

/-- Python `<` on float cells: false whenever an operand is NaN. -/
def efLtB : EF → EF → Bool
  | some a, some b => decide (a < b)
  | _, _ => false

/-- Python `<=` on float cells: false whenever an operand is NaN. -/
def efLeB : EF → EF → Bool
  | some a, some b => decide (a ≤ b)
  | _, _ => false

/-- Python `!= 0` on a float cell: NaN compares unequal to 0. -/
def efNe0 : EF → Bool
  | none => true
  | some q => decide (q ≠ 0)

/-- Both cells defined and equal (used to state the defined-equal case). -/
def efEqSomeB : EF → EF → Bool
  | some a, some b => decide (a = b)
  | _, _ => false

/-- The cell is NaN or a nonneg value (used for the amended C1 hypothesis). -/
def efNonnegB : EF → Bool
  | none => true
  | some q => decide (0 ≤ q)

/-- Python `round` to an integer, half to even (banker's rounding). -/
def pyRoundInt (q : ℚ) : ℤ :=
  if q - ⌊q⌋ < 1 / 2 then ⌊q⌋
  else if 1 / 2 < q - ⌊q⌋ then ⌊q⌋ + 1
  else if ⌊q⌋ % 2 = 0 then ⌊q⌋ else ⌊q⌋ + 1

/-- Python `round(q, d)`: round half to even at `d` decimal digits. -/
def pyRoundAt (d : Nat) (q : ℚ) : ℚ := (pyRoundInt (q * 10 ^ d) : ℚ) / 10 ^ d

/-- `round(x, 2)` lifted to float cells (`round(nan, 2)` is NaN). -/
def efRound2 : EF → EF := Option.map (pyRoundAt 2)

/-- `round(x, 1)` lifted to float cells. -/
def efRound1 : EF → EF := Option.map (pyRoundAt 1)

/-- Python `min(100, x)` on a float cell: `nan < 100` is false, so the NaN
argument loses and the result is always a finite number. -/
def pyMin100 : EF → ℚ
  | none => 100
  | some q => min 100 q

/-- The recursive tail of `ewm(adjust=False).mean()`:
`y_t = (1 - α) * y_prior + α * x_t`. -/
def ewmStep (α : ℚ) (y : ℚ) : List ℚ → List ℚ
  | [] => []
  | x :: xs => ((1 - α) * y + α * x) :: ewmStep α ((1 - α) * y + α * x) xs

/-- pandas `ewm(alpha=α, min_periods=0, adjust=False).mean()` on a series
without NaN: seeded at the first observation. -/
def ewmAdjFalse (α : ℚ) : List ℚ → List ℚ
  | [] => []
  | x :: xs => x :: ewmStep α x xs

/-- `ta.trend.EMAIndicator(close, window, fillna=True).ema_indicator()` on a
clean series: `close.ewm(span=window, min_periods=0, adjust=False).mean()`,
smoothing factor `2 / (window + 1)`. -/
def emaTA (window : Nat) (xs : List ℚ) : List ℚ :=
  ewmAdjFalse (2 / ((window : ℚ) + 1)) xs

/-- EMA computation as a fallible call: pandas rejects `span < 1`
(`ewm` raises ValueError), modelled as `none`. -/
def emaTAx (window : Nat) (xs : List ℚ) : Option (List ℚ) :=
  if window < 1 then none else some (emaTA window xs)

/-- pandas `diff(1)` after the `where(cond, 0.0)` of the RSI code: the
leading NaN of `diff` fails both `diff > 0` and `diff < 0`, so it is
replaced by `0.0`; we produce the difference list with that leading 0. -/
def taDiffs : List ℚ → List ℚ
  | [] => []
  | x :: rest => 0 :: List.zipWith (fun b a => b - a) rest (x :: rest)

/-- `ta.momentum.RSIIndicator(close, window, fillna=True).rsi()` on a clean
series: Wilder-style smoothing `ewm(alpha=1/window, min_periods=0,
adjust=False)` of the up and down moves, then
`np.where(emadn == 0, 100, 100 - 100 / (1 + emaup / emadn))`. -/
def rsiTA (window : Nat) (xs : List ℚ) : List ℚ :=
  let up := (taDiffs xs).map fun d => if 0 < d then d else 0
  let dn := (taDiffs xs).map fun d => if d < 0 then -d else 0
  let emaup := ewmAdjFalse (1 / (window : ℚ)) up
  let emadn := ewmAdjFalse (1 / (window : ℚ)) dn
  List.zipWith (fun u d => if d = 0 then 100 else 100 - 100 / (1 + u / d))
    emaup emadn

/-- RSI computation as a fallible call: `window = 0` makes the Python
`1 / window` raise ZeroDivisionError, modelled as `none`. -/
def rsiTAx (window : Nat) (xs : List ℚ) : Option (List ℚ) :=
  if window = 0 then none else some (rsiTA window xs)

/-- The two indicator classes dispatched on inside `safe_indicator`. -/
inductive IndClass
  | ema
  | rsiInd
deriving DecidableEq

/-- The indicator-library call made by `safe_indicator`; `none` is a raised
exception. -/
def indCore (ic : IndClass) (window : Nat) (xs : List ℚ) : Option (List ℚ) :=
  match ic with
  | .ema => emaTAx window xs
  | .rsiInd => rsiTAx window xs

/-- `safe_indicator` from `src/app.py` lines 81-91: coerce to numeric and
drop NaN; if fewer clean observations than the window, return an all-NaN
series of the clean length; otherwise run the indicator, and on an
exception return an all-NaN series of the clean length (by the time the
indicator call can raise, the local `series` has been rebound to the
clean series). -/
def safe_indicator (series : List EF) (ic : IndClass) (window : Nat) :
    List EF :=
  let clean := series.filterMap id
  if clean.length < window then List.replicate clean.length none
  else
    match indCore ic window clean with
    | some ys => ys.map some
    | none => List.replicate clean.length none

/-- Mean of a list of rationals (`sum / len`, the scipy mean). -/
def listMean (xs : List ℚ) : ℚ := xs.sum / xs.length

/-- Population variance (scipy `zscore` default `ddof=0`):
mean of squared deviations. -/
def popVariance (xs : List ℚ) : ℚ :=
  ((xs.map fun x => (x - listMean xs) ^ 2).sum) / xs.length

/-- Result of `safe_zscore`.  `zero` is the literal `0` returned by the
guards; `nanZ` is float NaN; `zval num var` is the defined value
`round((last - mean) / sqrt(var), 2)` with `var ≠ 0`, carried by its
defining data `num = last - mean` and `var` because the square root is
irrational in general and no claim inspects the defined value numerically.
The trichotomy is faithful: with at least 2 clean observations the scipy
z-score of the last element is NaN exactly when the population variance is
0 (then `last = mean` and the quotient is 0/0), and `round(·, 2)` maps NaN
to NaN and a finite value to a finite value. -/
inductive ZOut
  | zero
  | nanZ
  | zval (num var : ℚ)
deriving DecidableEq

/-- `safe_zscore` from `src/app.py` lines 93-102: coerce to numeric and drop
NaN; return `0` for fewer than 2 observations; otherwise
`round(zscore(series)[-1], 2)`.  scipy raises no exception on a numeric
series of length at least 2 — a zero standard deviation only emits a
RuntimeWarning and produces NaN — so the `except` branch (and the
DataFrame-column adapter, a type-level no-op here) is unreachable in the
modelled fragment. -/
def safe_zscore (series : List EF) : ZOut :=
  let clean := series.filterMap id
  if clean.length < 2 then .zero
  else if popVariance clean = 0 then .nanZ
  else .zval (clean.getLastD 0 - listMean clean) (popVariance clean)

/-- One row of the fetched OHLCV frame (the `Open` column is only used for
plotting and is omitted). -/
structure Bar where
  close : EF
  low : EF
  high : EF
  volume : EF
deriving DecidableEq

/-- The fetched DataFrame for one ticker: rows plus column-presence flags
(`"Close" in data.columns` etc.). -/
structure Frame where
  rows : List Bar
  hasClose : Bool := true
  hasLow : Bool := true
  hasHigh : Bool := true
  hasVolume : Bool := true
deriving DecidableEq

/-- Trend label of a row of the results table. -/
inductive Trend
  | bullish
  | bearish
  | neutral
deriving DecidableEq

/-- One entry of the `results` list appended at lines 157-166. -/
structure Row where
  ticker : String
  price : EF
  trend : Trend
  confidence : ℚ
  support : EF
  resistance : EF
  smartMoney : ZOut
  rsi : EF
deriving DecidableEq

/-- Per-ticker failure reported by `st.error`: a provider exception, the
`ValueError("Not enough data")` raised at line 122, or the missing-Close
skip at lines 128-130. -/
inductive Err
  | fetchFailed
  | notEnoughData
  | noClose
deriving DecidableEq

/-- Index-aligned column assignment: the i-th value of the produced series
lands on the i-th row whose close is defined; rows with an undefined close
get NaN; surplus defined-close rows (impossible when the produced series
has the clean length) also get NaN. -/
def alignToValid : List EF → List EF → List EF
  | [], _ => []
  | none :: cs, vs => none :: alignToValid cs vs
  | some _ :: cs, [] => none :: alignToValid cs []
  | some _ :: cs, v :: vs => v :: alignToValid cs vs

/-- pandas `.tail(10)`: the last 10 elements (fewer if the list is short). -/
def tail10 (l : List α) : List α := l.drop (l.length - 10)

/-- pandas `Series.min()`: minimum over the defined entries, NaN if none. -/
def seriesMin (l : List EF) : EF :=
  match l.filterMap id with
  | [] => none
  | x :: xs => some (xs.foldl min x)

/-- pandas `Series.max()`: maximum over the defined entries, NaN if none. -/
def seriesMax (l : List EF) : EF :=
  match l.filterMap id with
  | [] => none
  | x :: xs => some (xs.foldl max x)

/-- The coerced Close column (line 132). -/
def closesOf (f : Frame) : List EF := f.rows.map (·.close)

/-- The Low column. -/
def lowsOf (f : Frame) : List EF := f.rows.map (·.low)

/-- The High column. -/
def highsOf (f : Frame) : List EF := f.rows.map (·.high)

/-- The Volume column. -/
def volumesOf (f : Frame) : List EF := f.rows.map (·.volume)

/-- Column `EMA_20` (line 134), after index alignment. -/
def emaFastCol (f : Frame) : List EF :=
  alignToValid (closesOf f) (safe_indicator (closesOf f) .ema 20)

/-- Column `EMA_50` (line 135), after index alignment. -/
def emaSlowCol (f : Frame) : List EF :=
  alignToValid (closesOf f) (safe_indicator (closesOf f) .ema 50)

/-- Column `RSI` (line 136), after index alignment. -/
def rsiCol (f : Frame) : List EF :=
  alignToValid (closesOf f) (safe_indicator (closesOf f) .rsiInd 14)

/-- `last_close = data["Close"].iloc[-1]` (line 138; the frame is nonempty
whenever this is reached). -/
def lastClose (f : Frame) : EF := (closesOf f).getLastD none

/-- `ema20 = data["EMA_20"].iloc[-1]` (line 139). -/
def emaFastLast (f : Frame) : EF := (emaFastCol f).getLastD none

/-- `ema50 = data["EMA_50"].iloc[-1]` (line 140). -/
def emaSlowLast (f : Frame) : EF := (emaSlowCol f).getLastD none

/-- `rsi = data["RSI"].iloc[-1]` (line 141). -/
def rsiLast (f : Frame) : EF := (rsiCol f).getLastD none

/-- The trend classification of lines 143-148 (float comparisons: a NaN
operand makes both strict comparisons false, landing on Neutral). -/
def trendOf (f : Frame) : Trend :=
  if efLtB (emaSlowLast f) (emaFastLast f) then .bullish
  else if efLtB (emaFastLast f) (emaSlowLast f) then .bearish
  else .neutral

/-- `distance = abs(ema20 - ema50) / last_close * 100 if last_close != 0
else 0` (line 150).  NaN `last_close` passes the `!= 0` test. -/
def distanceOf (f : Frame) : EF :=
  if efNe0 (lastClose f) then
    efMul (efDiv (efAbs (efSub (emaFastLast f) (emaSlowLast f))) (lastClose f))
      (some 100)
  else some 0

/-- `confidence = min(100, round(distance * 2, 2))` (line 151): always a
finite number, because `min(100, nan)` is `100` in Python. -/
def confidenceOf (f : Frame) : ℚ :=
  pyMin100 (efRound2 (efMul (distanceOf f) (some 2)))

/-- `support = data["Low"].tail(10).min() if "Low" in data.columns else 0`
(line 153). -/
def supportOf (f : Frame) : EF :=
  if f.hasLow then seriesMin (tail10 (lowsOf f)) else some 0

/-- `resistance = data["High"].tail(10).max() if "High" in data.columns
else 0` (line 154). -/
def resistanceOf (f : Frame) : EF :=
  if f.hasHigh then seriesMax (tail10 (highsOf f)) else some 0

/-- `smart_money = safe_zscore(data["Volume"]) if "Volume" in data.columns
else 0` (line 155). -/
def smartMoneyOf (f : Frame) : ZOut :=
  if f.hasVolume then safe_zscore (volumesOf f) else .zero

/-- The result record appended to `results` at lines 157-166. -/
def rowOf (t : String) (f : Frame) : Row :=
  { ticker := t
    price := efRound2 (lastClose f)
    trend := trendOf f
    confidence := confidenceOf f
    support := efRound2 (supportOf f)
    resistance := efRound2 (resistanceOf f)
    smartMoney := smartMoneyOf f
    rsi := efRound1 (rsiLast f) }

/-- The body of the per-ticker `try` block, lines 117-166: the row-count
guard (`data.empty or len(data) < 2` raises), the missing-Close skip, then
the analysis producing the appended result row. -/
def processTicker (t : String) (f : Frame) : Except Err Row :=
  if f.rows.length < 2 then .error .notEnoughData
  else if f.hasClose = false then .error .noClose
  else .ok (rowOf t f)

/-- One loop iteration including the provider call: a fetch exception
(`none` frame) is caught like any other per-ticker failure. -/
def fetchProcess (t : String) (mf : Option Frame) : Except Err Row :=
  match mf with
  | none => .error .fetchFailed
  | some f => processTicker t f

/-- The scan loop of lines 116-172 over (ticker, provider response) pairs:
results are appended in input order, failures are reported per ticker. -/
def scan : List (String × Option Frame) → List Row × List (String × Err)
  | [] => ([], [])
  | p :: rest =>
    match fetchProcess p.1 p.2, scan rest with
    | .ok r, (rs, es) => (r :: rs, es)
    | .error e, (rs, es) => (rs, (p.1, e) :: es)

/-! ### Concrete inputs used by counterexamples and witnesses -/

/-- A ticker symbol used by the concrete evaluations. -/
def tkA : String := "A"

/-- A bar with close 0 and no further data. -/
def bar0 : Bar := { close := some 0, low := none, high := none, volume := none }

/-- A bar with close -1 and no further data. -/
def barNeg : Bar := { close := some (-1), low := none, high := none, volume := none }

/-- A bar with close 100 and no further data. -/
def bar100 : Bar := { close := some 100, low := none, high := none, volume := none }

/-- 50 valid closes, 49 at 0 then one at -1: both EMAs defined and distinct,
negative last close. -/
def frameNeg : Frame :=
  { rows := List.replicate 49 bar0 ++ [barNeg]
    hasLow := false, hasHigh := false, hasVolume := false }

/-- 50 valid closes all at 100: both EMAs defined and equal to 100. -/
def frameConst : Frame :=
  { rows := List.replicate 50 bar100
    hasLow := false, hasHigh := false, hasVolume := false }

/-- Two valid closes 1 and 2: too short for every indicator window, so all
indicator columns are NaN. -/
def frame2up : Frame :=
  { rows := [ { close := some 1, low := none, high := none, volume := none },
              { close := some 2, low := none, high := none, volume := none } ]
    hasLow := false, hasHigh := false, hasVolume := false }

/-- Two rows whose closes are both NaN: 2 rows but 0 valid closes. -/
def frame2none : Frame :=
  { rows := [ { close := none, low := none, high := none, volume := none },
              { close := none, low := none, high := none, volume := none } ] }

/-- 50 valid closes, 49 at 0 then one at 21: a frame the code labels
Bullish (fast EMA 2 against slow EMA 14/17). -/
def frameBull : Frame :=
  { rows := List.replicate 49 bar0 ++
      [ { close := some 21, low := none, high := none, volume := none } ]
    hasLow := false, hasHigh := false, hasVolume := false }

/-- Two full OHLCV bars with Low above High (nothing in the pipeline checks
the bar invariant `low ≤ high`). -/
def frameLHbad : Frame :=
  { rows := [ { close := some 1, low := some 5, high := some 3, volume := some 10 },
              { close := some 1, low := some 5, high := some 3, volume := some 20 } ] }

/-- Two well-formed OHLCV bars (Low below High). -/
def frameLH : Frame :=
  { rows := [ { close := some 1, low := some 4, high := some 8, volume := some 10 },
              { close := some 2, low := some 5, high := some 9, volume := some 20 } ] }

/-- Two bars with a constant Volume column (zero variance, 2 valid
observations). -/
def frameVolConst : Frame :=
  { rows := [ { close := some 1, low := none, high := none, volume := some 100 },
              { close := some 2, low := none, high := none, volume := some 100 } ] }

/-! ### Helper lemmas -/

theorem alignToValid_length (c v : List EF) :
    (alignToValid c v).length = c.length := by
  induction c generalizing v with
  | nil => rfl
  | cons x cs ih =>
    cases x with
    | none => simp [alignToValid, ih]
    | some a =>
      cases v with
      | nil => simp [alignToValid, ih]
      | cons v0 vs => simp [alignToValid, ih]

theorem alignToValid_ne_nil (c v : List EF) (h : c ≠ []) :
    alignToValid c v ≠ [] := by
  intro hn
  have := alignToValid_length c v
  rw [hn] at this
  exact h (List.eq_nil_of_length_eq_zero this.symm)

theorem getLast?_cons_of_ne_nil (a : α) (l : List α) (h : l ≠ []) :
    (a :: l).getLast? = l.getLast? := by
  cases l with
  | nil => exact absurd rfl h
  | cons b t => simp [List.getLast?_cons_cons]

theorem alignToValid_getLast?_none (c v : List EF)
    (h : c.getLast? = some none) :
    (alignToValid c v).getLast? = some none := by
  induction c generalizing v with
  | nil => simp at h
  | cons x cs ih =>
    cases cs with
    | nil =>
      have hx : x = none := by simpa using h
      subst hx
      simp [alignToValid]
    | cons y cs2 =>
      have h2 : (y :: cs2).getLast? = some none := by
        simpa [List.getLast?_cons_cons] using h
      have hne : (y :: cs2) ≠ ([] : List EF) := by simp
      cases x with
      | none =>
        rw [show alignToValid (none :: y :: cs2) v =
              none :: alignToValid (y :: cs2) v from rfl,
            getLast?_cons_of_ne_nil _ _ (alignToValid_ne_nil _ _ hne)]
        exact ih v h2
      | some a =>
        cases v with
        | nil =>
          rw [show alignToValid (some a :: y :: cs2) [] =
                none :: alignToValid (y :: cs2) [] from rfl,
              getLast?_cons_of_ne_nil _ _ (alignToValid_ne_nil _ _ hne)]
          exact ih [] h2
        | cons v0 vs =>
          rw [show alignToValid (some a :: y :: cs2) (v0 :: vs) =
                v0 :: alignToValid (y :: cs2) vs from rfl,
              getLast?_cons_of_ne_nil _ _ (alignToValid_ne_nil _ _ hne)]
          exact ih vs h2

theorem alignToValid_all_none (c : List EF) (n : Nat) :
    ∀ x ∈ alignToValid c (List.replicate n none), x = none := by
  induction c generalizing n with
  | nil => intro x hx; simp [alignToValid] at hx
  | cons hd cs ih =>
    intro x hx
    cases hd with
    | none =>
      rcases hx with _ | hx
      · rfl
      · exact ih n _ (by assumption)
    | some a =>
      cases n with
      | zero =>
        rcases hx with _ | hx
        · rfl
        · exact ih 0 _ (by assumption)
      | succ m =>
        rcases hx with _ | hx
        · rfl
        · exact ih m _ (by assumption)

theorem floor_le_pyRoundInt (q : ℚ) : ⌊q⌋ ≤ pyRoundInt q := by
  unfold pyRoundInt
  split_ifs <;> omega

theorem pyRoundInt_le_floor_add_one (q : ℚ) : pyRoundInt q ≤ ⌊q⌋ + 1 := by
  unfold pyRoundInt
  split_ifs <;> omega

theorem pyRoundInt_mono {a b : ℚ} (h : a ≤ b) : pyRoundInt a ≤ pyRoundInt b := by
  rcases lt_or_eq_of_le (Int.floor_le_floor h) with hf | hf
  · calc pyRoundInt a ≤ ⌊a⌋ + 1 := pyRoundInt_le_floor_add_one a
      _ ≤ ⌊b⌋ := by omega
      _ ≤ pyRoundInt b := floor_le_pyRoundInt b
  · unfold pyRoundInt
    rw [← hf]
    have hfr : a - ⌊a⌋ ≤ b - ⌊a⌋ := by linarith
    split_ifs <;> first
      | omega
      | linarith

theorem pyRoundInt_nonneg {q : ℚ} (h : 0 ≤ q) : 0 ≤ pyRoundInt q := by
  have h0 : (0 : ℤ) ≤ ⌊q⌋ := Int.floor_nonneg.mpr h
  have := floor_le_pyRoundInt q
  omega

theorem pyRoundAt_nonneg (d : Nat) {q : ℚ} (h : 0 ≤ q) : 0 ≤ pyRoundAt d q := by
  unfold pyRoundAt
  have hp : (0 : ℚ) < 10 ^ d := by positivity
  have h1 : 0 ≤ q * 10 ^ d := by positivity
  have h2 : (0 : ℚ) ≤ (pyRoundInt (q * 10 ^ d) : ℚ) := by
    exact_mod_cast pyRoundInt_nonneg h1
  positivity

theorem pyRoundAt_mono (d : Nat) {a b : ℚ} (h : a ≤ b) :
    pyRoundAt d a ≤ pyRoundAt d b := by
  unfold pyRoundAt
  have hp : (0 : ℚ) < 10 ^ d := by positivity
  have h1 : a * 10 ^ d ≤ b * 10 ^ d := by
    exact mul_le_mul_of_nonneg_right h (le_of_lt hp)
  have h2 : (pyRoundInt (a * 10 ^ d) : ℚ) ≤ (pyRoundInt (b * 10 ^ d) : ℚ) := by
    exact_mod_cast pyRoundInt_mono h1
  exact (div_le_div_iff_of_pos_right hp).mpr h2

theorem pyRoundAt_zero (d : Nat) : pyRoundAt d 0 = 0 := by
  unfold pyRoundAt pyRoundInt
  norm_num

theorem pyMin100_le (x : EF) : pyMin100 x ≤ 100 := by
  cases x with
  | none => exact le_refl 100
  | some q => exact min_le_left 100 q

theorem pyMin100_nonneg (x : EF) (h : ∀ q, x = some q → 0 ≤ q) :
    0 ≤ pyMin100 x := by
  cases x with
  | none => norm_num [pyMin100]
  | some q =>
    have := h q rfl
    simp only [pyMin100]
    exact le_min (by norm_num) this

theorem efLtB_asymm {a b : EF} (h : efLtB a b = true) : efLtB b a = false := by
  cases a with
  | none => cases b <;> simp [efLtB] at h
  | some x =>
    cases b with
    | none => simp [efLtB] at h
    | some y =>
      simp only [efLtB, decide_eq_true_eq] at h
      simp only [efLtB, decide_eq_false_iff_not]
      exact not_lt.mpr h.le

theorem processTicker_ok (t : String) (f : Frame) (h2 : 2 ≤ f.rows.length)
    (hc : f.hasClose = true) : processTicker t f = .ok (rowOf t f) := by
  unfold processTicker
  rw [if_neg (by omega), if_neg (by simp [hc])]

theorem foldl_min_le {a : ℚ} : ∀ (l : List ℚ) (x : ℚ), a = x ∨ a ∈ l →
    l.foldl min x ≤ a
  | [], x, h => by
    rcases h with h | h
    · simp [h]
    · simp at h
  | y :: t, x, h => by
    rcases h with h | h
    · subst h
      calc (y :: t).foldl min a = t.foldl min (min a y) := rfl
        _ ≤ min a y := foldl_min_le t (min a y) (Or.inl rfl)
        _ ≤ a := min_le_left a y
    · rcases List.mem_cons.mp h with h | h
      · subst h
        calc (a :: t).foldl min x = t.foldl min (min x a) := rfl
          _ ≤ min x a := foldl_min_le t (min x a) (Or.inl rfl)
          _ ≤ a := min_le_right x a
      · exact foldl_min_le t (min x y) (Or.inr h)

theorem le_foldl_max {a : ℚ} : ∀ (l : List ℚ) (x : ℚ), a = x ∨ a ∈ l →
    a ≤ l.foldl max x
  | [], x, h => by
    rcases h with h | h
    · simp [h]
    · simp at h
  | y :: t, x, h => by
    rcases h with h | h
    · subst h
      calc a ≤ max a y := le_max_left a y
        _ ≤ t.foldl max (max a y) := le_foldl_max t (max a y) (Or.inl rfl)
        _ = (y :: t).foldl max a := rfl
    · rcases List.mem_cons.mp h with h | h
      · subst h
        calc a ≤ max x a := le_max_right x a
          _ ≤ t.foldl max (max x a) := le_foldl_max t (max x a) (Or.inl rfl)
          _ = (a :: t).foldl max x := rfl
      · exact le_foldl_max t (max x y) (Or.inr h)

theorem seriesMin_le (l : List EF) (a : ℚ) (h : some a ∈ l) :
    ∃ m, seriesMin l = some m ∧ m ≤ a := by
  have ha : a ∈ l.filterMap id := by
    rw [List.mem_filterMap]
    exact ⟨some a, h, rfl⟩
  unfold seriesMin
  cases hl : l.filterMap id with
  | nil => rw [hl] at ha; simp at ha
  | cons x xs =>
    rw [hl] at ha
    refine ⟨xs.foldl min x, rfl, ?_⟩
    rcases List.mem_cons.mp ha with h1 | h1
    · exact foldl_min_le xs x (Or.inl h1)
    · exact foldl_min_le xs x (Or.inr h1)

theorem le_seriesMax (l : List EF) (a : ℚ) (h : some a ∈ l) :
    ∃ m, seriesMax l = some m ∧ a ≤ m := by
  have ha : a ∈ l.filterMap id := by
    rw [List.mem_filterMap]
    exact ⟨some a, h, rfl⟩
  unfold seriesMax
  cases hl : l.filterMap id with
  | nil => rw [hl] at ha; simp at ha
  | cons x xs =>
    rw [hl] at ha
    refine ⟨xs.foldl max x, rfl, ?_⟩
    rcases List.mem_cons.mp ha with h1 | h1
    · exact le_foldl_max xs x (Or.inl h1)
    · exact le_foldl_max xs x (Or.inr h1)

theorem aligned_getLastD_none (f : Frame) (v : List EF)
    (h : lastClose f = none) :
    (alignToValid (closesOf f) v).getLastD none = none := by
  cases hc : closesOf f with
  | nil => simp [alignToValid]
  | cons x cs =>
    unfold lastClose at h
    rw [hc] at h
    rw [List.getLastD_eq_getLast? none (x :: cs)] at h
    have hsome : (x :: cs).getLast? = some none := by
      cases hl : (x :: cs).getLast? with
      | none =>
        exfalso
        have hne : x :: cs ≠ ([] : List EF) := by simp
        have hs := List.getLast?_isSome.mpr hne
        rw [hl] at hs
        simp at hs
      | some z =>
        rw [hl] at h
        simp at h
        rw [h]
    rw [List.getLastD_eq_getLast? none _,
        alignToValid_getLast?_none (x :: cs) v hsome]
    rfl

theorem distanceOf_nonneg (f : Frame) (hnn : efNonnegB (lastClose f) = true)
    {d : ℚ} (hd : distanceOf f = some d) : 0 ≤ d := by
  unfold distanceOf at hd
  cases hl : lastClose f with
  | none =>
    rw [hl] at hd
    cases hs : efSub (emaFastLast f) (emaSlowLast f) with
    | none => rw [hs] at hd; simp [efNe0, efAbs, efDiv, efMul, efBin] at hd
    | some s => rw [hs] at hd; simp [efNe0, efAbs, efDiv, efMul, efBin] at hd
  | some q0 =>
    rw [hl] at hd
    rw [hl] at hnn
    have h0 : 0 ≤ q0 := by simpa [efNonnegB] using hnn
    by_cases hq0 : q0 = 0
    · subst hq0
      simp [efNe0] at hd
      exact le_of_eq hd
    · have hne : efNe0 (some q0) = true := by simp [efNe0, hq0]
      rw [if_pos hne] at hd
      cases hs : efSub (emaFastLast f) (emaSlowLast f) with
      | none => rw [hs] at hd; simp [efAbs, efDiv, efMul, efBin] at hd
      | some s =>
        rw [hs] at hd
        simp [efAbs, efDiv, efMul, efBin, hq0] at hd
        have hq0pos : 0 < q0 := lt_of_le_of_ne h0 (Ne.symm hq0)
        have hpos : 0 ≤ |s| / q0 * 100 := by positivity
        rw [← hd]
        exact hpos

theorem safe_indicator_short (s : List EF) (ic : IndClass) (w : Nat)
    (h : (s.filterMap id).length < w) :
    safe_indicator s ic w = List.replicate (s.filterMap id).length none := by
  unfold safe_indicator
  rw [if_pos h]

theorem ewmStep_length (α : ℚ) :
    ∀ (l : List ℚ) (y : ℚ), (ewmStep α y l).length = l.length
  | [], _ => rfl
  | x :: xs, y => by
    simp only [ewmStep, List.length_cons]
    rw [ewmStep_length α xs]

theorem ewmAdjFalse_length (α : ℚ) (l : List ℚ) :
    (ewmAdjFalse α l).length = l.length := by
  cases l with
  | nil => rfl
  | cons x xs => simp [ewmAdjFalse, ewmStep_length]

theorem taDiffs_length (l : List ℚ) : (taDiffs l).length = l.length := by
  cases l with
  | nil => rfl
  | cons x xs =>
    simp only [taDiffs, List.length_cons, List.length_zipWith]
    omega

theorem rsiTA_length (w : Nat) (l : List ℚ) : (rsiTA w l).length = l.length := by
  simp only [rsiTA, List.length_zipWith, ewmAdjFalse_length, List.length_map,
    taDiffs_length]
  omega

theorem safe_indicator_length (s : List EF) (ic : IndClass) (w : Nat) :
    (safe_indicator s ic w).length = (s.filterMap id).length := by
  simp only [safe_indicator]
  split_ifs with h
  · simp
  · cases hic : indCore ic w (s.filterMap id) with
    | none => simp
    | some ys =>
      have hlen : ys.length = (s.filterMap id).length := by
        cases ic with
        | ema =>
          simp only [indCore, emaTAx] at hic
          split_ifs at hic with h1
          rw [← Option.some.inj hic]
          exact ewmAdjFalse_length _ _
        | rsiInd =>
          simp only [indCore, rsiTAx] at hic
          split_ifs at hic with h1
          rw [← Option.some.inj hic]
          exact rsiTA_length _ _
      simp [hlen]

theorem scan_cons_ok (p : String × Option Frame)
    (rest : List (String × Option Frame)) (r : Row)
    (h : fetchProcess p.1 p.2 = .ok r) :
    scan (p :: rest) = (r :: (scan rest).1, (scan rest).2) := by
  rcases hsr : scan rest with ⟨rs, es⟩
  conv_lhs => rw [scan]
  rw [h, hsr]

theorem scan_cons_error (p : String × Option Frame)
    (rest : List (String × Option Frame)) (e : Err)
    (h : fetchProcess p.1 p.2 = .error e) :
    scan (p :: rest) = ((scan rest).1, (p.1, e) :: (scan rest).2) := by
  rcases hsr : scan rest with ⟨rs, es⟩
  conv_lhs => rw [scan]
  rw [h, hsr]

theorem tail10_lows (f : Frame) :
    tail10 (lowsOf f) = (tail10 f.rows).map (·.low) := by
  unfold tail10 lowsOf
  rw [List.length_map, List.map_drop]

theorem tail10_highs (f : Frame) :
    tail10 (highsOf f) = (tail10 f.rows).map (·.high) := by
  unfold tail10 highsOf
  rw [List.length_map, List.map_drop]

theorem efMul_some (a b : ℚ) : efMul (some a) (some b) = some (a * b) := rfl

theorem efMul_none_left (b : EF) : efMul none b = none := by cases b <;> rfl

theorem efSub_some (a b : ℚ) : efSub (some a) (some b) = some (a - b) := rfl

theorem efSub_none_left (b : EF) : efSub none b = none := by cases b <;> rfl

theorem efAbs_none : efAbs none = none := rfl

theorem efAbs_some (a : ℚ) : efAbs (some a) = some |a| := rfl

theorem efDiv_some (a b : ℚ) (h : b ≠ 0) :
    efDiv (some a) (some b) = some (a / b) := by
  simp [efDiv, h]

theorem efDiv_none_left (b : EF) : efDiv none b = none := by cases b <;> rfl

theorem efDiv_none_right (a : EF) : efDiv a none = none := by cases a <;> rfl

theorem efRound2_some (a : ℚ) : efRound2 (some a) = some (pyRoundAt 2 a) := rfl

theorem efRound2_none : efRound2 none = none := rfl

theorem pyMin100_some (q : ℚ) : pyMin100 (some q) = min 100 q := rfl

theorem pyMin100_none : pyMin100 none = 100 := rfl

theorem efNe0_some_zero : efNe0 (some 0) = false := by simp [efNe0]

theorem efNe0_some_ne (q : ℚ) (h : q ≠ 0) : efNe0 (some q) = true := by
  simp [efNe0, h]

theorem efNe0_none : efNe0 none = true := rfl

/-! ### Claims -/

/-- C1 counterexample: `frameNeg` is a sanitized series of 50 valid closes
(49 at 0, then -1), yet the computed confidence is -56/5, below 0: with a
negative last close the division at line 150 makes `distance` negative and
`min(100, ...)` does not clamp from below. -/
theorem c1_counterexample :
    2 ≤ ((closesOf frameNeg).filterMap id).length ∧
    Option.map Row.confidence (processTicker tkA frameNeg).toOption =
      some (-56 / 5) ∧
    ¬ (0 ≤ (-56 / 5 : ℚ)) := by
  with_unfolding_all decide

/-- C1, amended: for every frame with at least 2 valid closes and a last
close that is not a negative number (NaN or nonneg), the per-ticker
analysis produces a result row and its confidence lies in [0, 100].  (The
unamended claim fails when the last close is negative: see the
counterexample.) -/
theorem c1_confidence_bounds (t : String) (f : Frame)
    (h2v : 2 ≤ ((closesOf f).filterMap id).length) (hc : f.hasClose = true)
    (hnn : efNonnegB (lastClose f) = true) :
    ∃ r, processTicker t f = .ok r ∧ 0 ≤ r.confidence ∧ r.confidence ≤ 100 := by
  have hlen : 2 ≤ f.rows.length := by
    calc 2 ≤ ((closesOf f).filterMap id).length := h2v
      _ ≤ (closesOf f).length := List.length_filterMap_le _ _
      _ = f.rows.length := List.length_map _ _
  refine ⟨rowOf t f, processTicker_ok t f hlen hc, ?_, pyMin100_le _⟩
  show 0 ≤ confidenceOf f
  unfold confidenceOf
  apply pyMin100_nonneg
  intro q hq
  cases hd : distanceOf f with
  | none =>
    rw [hd, efMul_none_left, efRound2_none] at hq
    simp at hq
  | some d =>
    rw [hd, efMul_some, efRound2_some] at hq
    have hq2 : q = pyRoundAt 2 (d * 2) := (Option.some.inj hq).symm
    have hd0 : 0 ≤ d := distanceOf_nonneg f hnn hd
    rw [hq2]
    exact pyRoundAt_nonneg 2 (by linarith)

/-- C1 witness: the theorem applied to `frame2up` (closes 1 and 2). -/
theorem c1_witness :
    ∃ r, processTicker tkA frame2up = .ok r ∧
      0 ≤ r.confidence ∧ r.confidence ≤ 100 :=
  c1_confidence_bounds tkA frame2up (by with_unfolding_all decide) rfl
    (by with_unfolding_all decide)

/-- C2 counterexample: on `frame2up` both EMA columns end undefined, the
trend is Neutral as the claim says, but the confidence is 100, not 0:
there is no `last_close` fallback in the code, `distance` is NaN and
Python `min(100, nan)` returns 100. -/
theorem c2_counterexample :
    emaFastLast frame2up = none ∧ emaSlowLast frame2up = none ∧
    Option.map Row.trend (processTicker tkA frame2up).toOption =
      some Trend.neutral ∧
    Option.map Row.confidence (processTicker tkA frame2up).toOption =
      some 100 ∧
    (100 : ℚ) ≠ 0 := by
  with_unfolding_all decide

/-- C2, amended: when the last fast-EMA and slow-EMA values are both
defined and equal, the trend is Neutral and the confidence 0.  When both
are undefined (NaN), the trend is Neutral but the confidence is 100,
except that a last close equal to 0 gives confidence 0; the
`last_close`-substitution fallback described by the spec does not exist in
the code. -/
theorem c2_equal_emas (t : String) (f : Frame) (h2 : 2 ≤ f.rows.length)
    (hc : f.hasClose = true) :
    (efEqSomeB (emaFastLast f) (emaSlowLast f) = true →
      ∃ r, processTicker t f = .ok r ∧ r.trend = .neutral ∧
        r.confidence = 0) ∧
    (emaFastLast f = none → emaSlowLast f = none →
      ∃ r, processTicker t f = .ok r ∧ r.trend = .neutral ∧
        r.confidence = (if lastClose f = some 0 then 0 else 100)) := by
  constructor
  · intro hEq
    obtain ⟨q, hf, hs⟩ : ∃ q, emaFastLast f = some q ∧ emaSlowLast f = some q := by
      cases hfa : emaFastLast f with
      | none =>
        rw [hfa] at hEq
        cases emaSlowLast f <;> simp [efEqSomeB] at hEq
      | some a =>
        cases hsa : emaSlowLast f with
        | none => rw [hfa, hsa] at hEq; simp [efEqSomeB] at hEq
        | some b =>
          rw [hfa, hsa] at hEq
          simp only [efEqSomeB, decide_eq_true_eq] at hEq
          exact ⟨a, rfl, by rw [hEq]⟩
    refine ⟨rowOf t f, processTicker_ok t f h2 hc, ?_, ?_⟩
    · show trendOf f = .neutral
      unfold trendOf
      rw [hf, hs]
      simp [efLtB]
    · show confidenceOf f = 0
      cases hl : lastClose f with
      | none =>
        exfalso
        have := aligned_getLastD_none f (safe_indicator (closesOf f) .ema 20) hl
        rw [show (alignToValid (closesOf f)
              (safe_indicator (closesOf f) .ema 20)).getLastD none
            = emaFastLast f from rfl, hf] at this
        simp at this
      | some q0 =>
        unfold confidenceOf distanceOf
        rw [hf, hs, hl]
        by_cases h0 : q0 = 0
        · subst h0
          rw [efNe0_some_zero, if_neg Bool.false_ne_true, efMul_some,
            zero_mul, efRound2_some, pyRoundAt_zero, pyMin100_some]
          exact min_eq_right (by norm_num)
        · rw [efNe0_some_ne q0 h0, if_pos rfl, efSub_some, sub_self,
            efAbs_some, abs_zero, efDiv_some 0 q0 h0, zero_div, efMul_some,
            zero_mul, efMul_some, zero_mul, efRound2_some, pyRoundAt_zero,
            pyMin100_some]
          exact min_eq_right (by norm_num)
  · intro hf hs
    refine ⟨rowOf t f, processTicker_ok t f h2 hc, ?_, ?_⟩
    · show trendOf f = .neutral
      unfold trendOf
      rw [hf, hs]
      simp [efLtB]
    · show confidenceOf f = (if lastClose f = some 0 then 0 else 100)
      unfold confidenceOf distanceOf
      rw [hf, hs]
      by_cases hl0 : lastClose f = some 0
      · rw [if_pos hl0, hl0, efNe0_some_zero, if_neg Bool.false_ne_true,
          efMul_some, zero_mul, efRound2_some, pyRoundAt_zero, pyMin100_some]
        exact min_eq_right (by norm_num)
      · rw [if_neg hl0]
        cases hl : lastClose f with
        | none =>
          rw [efNe0_none, if_pos rfl, efSub_none_left, efAbs_none,
            efDiv_none_left, efMul_none_left, efMul_none_left, efRound2_none,
            pyMin100_none]
        | some q0 =>
          have hq0 : q0 ≠ 0 := by
            intro h
            exact hl0 (by rw [hl, h])
          rw [efNe0_some_ne q0 hq0, if_pos rfl, efSub_none_left,
            efAbs_none, efDiv_none_left, efMul_none_left, efMul_none_left,
            efRound2_none, pyMin100_none]

/-- C2 witness: the defined-and-equal branch applied to `frameConst`
(50 closes at 100, both EMAs defined and equal to 100). -/
theorem c2_witness :
    ∃ r, processTicker tkA frameConst = .ok r ∧ r.trend = .neutral ∧
      r.confidence = 0 :=
  (c2_equal_emas tkA frameConst (by with_unfolding_all decide) rfl).1
    (by with_unfolding_all decide)

/-- C3: `safe_zscore` of a constant volume series with 2 valid observations
is float NaN, not 0 — the scipy division by a zero standard deviation
produces NaN with only a RuntimeWarning, which the `except` clause does not
catch.  The fewer-than-2-observations guard does return 0, and the
missing-column default in the pipeline is `.zero`; the zero-variance case
contradicts the claim. -/
theorem c3_zero_variance_nan :
    safe_zscore [some 100, some 100] = ZOut.nanZ ∧
    safe_zscore [some 100] = ZOut.zero ∧
    smartMoneyOf frameVolConst = ZOut.nanZ ∧
    ZOut.nanZ ≠ ZOut.zero := by
  with_unfolding_all decide

/-- C4: the scan is pointwise over its input: the result list is exactly
the per-ticker successes in input order, and the error list is exactly the
per-ticker failures in input order — a failing ticker is recorded and has
no effect on any other ticker's result. -/
theorem c4_scan_isolates_failures (inputs : List (String × Option Frame)) :
    (scan inputs).1 =
      inputs.filterMap (fun p => (fetchProcess p.1 p.2).toOption) ∧
    (scan inputs).2 =
      inputs.filterMap (fun p =>
        match fetchProcess p.1 p.2 with
        | .ok _ => none
        | .error e => some (p.1, e)) := by
  induction inputs with
  | nil => exact ⟨rfl, rfl⟩
  | cons p rest ih =>
    cases hp : fetchProcess p.1 p.2 with
    | ok r =>
      rw [scan_cons_ok p rest r hp]
      simp [List.filterMap_cons, hp, Except.toOption, ih.1, ih.2]
    | error e =>
      rw [scan_cons_error p rest e hp]
      simp [List.filterMap_cons, hp, Except.toOption, ih.1, ih.2]

/-- C5 counterexample: `frame2none` has 2 rows but 0 valid closes, and is
not rejected — the guard at line 121 counts rows, not valid closes, so the
ticker is analyzed (with NaN propagation) instead of failing with
InsufficientData. -/
theorem c5_counterexample :
    ((closesOf frame2none).filterMap id).length = 0 ∧
    frame2none.rows.length = 2 ∧
    (processTicker tkA frame2none).toOption.isSome = true := by
  with_unfolding_all decide

/-- C5, amended: a ticker is rejected with the InsufficientData signal
(`ValueError("Not enough data")`) exactly when its fetched frame has fewer
than 2 rows; the number of valid closes after sanitization is not
inspected by the guard. -/
theorem c5_reject_iff_short (t : String) (f : Frame) :
    processTicker t f = .error .notEnoughData ↔ f.rows.length < 2 := by
  unfold processTicker
  split_ifs with h1 h2
  · simp [h1]
  · simp [h1]
  · simp [h1]

/-- C6: the trend is Bullish exactly when the last fast-EMA value is
strictly greater than the last slow-EMA value under float comparison
semantics (a NaN operand makes the comparison false), Bearish exactly when
it is strictly smaller, and Neutral exactly otherwise. -/
theorem c6_trend_classification (t : String) (f : Frame)
    (h2 : 2 ≤ f.rows.length) (hc : f.hasClose = true) :
    ∃ r, processTicker t f = .ok r ∧
      (r.trend = .bullish ↔ efLtB (emaSlowLast f) (emaFastLast f) = true) ∧
      (r.trend = .bearish ↔ efLtB (emaFastLast f) (emaSlowLast f) = true) ∧
      (r.trend = .neutral ↔
        (efLtB (emaSlowLast f) (emaFastLast f) = false ∧
         efLtB (emaFastLast f) (emaSlowLast f) = false)) := by
  refine ⟨rowOf t f, processTicker_ok t f h2 hc, ?_, ?_, ?_⟩
  · show trendOf f = .bullish ↔ _
    unfold trendOf
    cases hb1 : efLtB (emaSlowLast f) (emaFastLast f) with
    | true => simp
    | false =>
      cases hb2 : efLtB (emaFastLast f) (emaSlowLast f) <;> simp
  · show trendOf f = .bearish ↔ _
    unfold trendOf
    cases hb1 : efLtB (emaSlowLast f) (emaFastLast f) with
    | true =>
      rw [efLtB_asymm hb1]
      simp
    | false =>
      cases hb2 : efLtB (emaFastLast f) (emaSlowLast f) <;> simp [hb2]
  · show trendOf f = .neutral ↔ _
    unfold trendOf
    cases hb1 : efLtB (emaSlowLast f) (emaFastLast f) with
    | true => simp [hb1]
    | false =>
      cases hb2 : efLtB (emaFastLast f) (emaSlowLast f) <;> simp [hb2]

/-- C6 witness: on `frameBull` the fast EMA ends at 2 and the slow EMA at
14/17, and the theorem yields the Bullish label. -/
theorem c6_witness :
    ∃ r, processTicker tkA frameBull = .ok r ∧ r.trend = .bullish := by
  obtain ⟨r, hr, hb, _, _⟩ :=
    c6_trend_classification tkA frameBull (by with_unfolding_all decide) rfl
  exact ⟨r, hr, hb.mpr (by with_unfolding_all decide)⟩

/-- C7 counterexample: on `frameLHbad` both levels come from the same
non-empty 10-bar tail window, yet support is 5 and resistance 3 — nothing
in the pipeline checks `low ≤ high`, so the claimed invariant fails. -/
theorem c7_counterexample :
    frameLHbad.hasLow = true ∧ frameLHbad.hasHigh = true ∧
    (tail10 (lowsOf frameLHbad)).filterMap id ≠ [] ∧
    (tail10 (highsOf frameLHbad)).filterMap id ≠ [] ∧
    Option.map Row.support (processTicker tkA frameLHbad).toOption =
      some (some 5) ∧
    Option.map Row.resistance (processTicker tkA frameLHbad).toOption =
      some (some 3) ∧
    ¬ ((5 : ℚ) ≤ 3) := by
  with_unfolding_all decide

/-- C7, amended: support is `min` over the trailing-10 Low window and
resistance is `max` over the trailing-10 High window (rounded to 2
decimals in the result row), and `support ≤ resistance` holds provided
some bar of the window has both Low and High defined with `low ≤ high`
(the bar invariant the data provider supplies but the code never checks). -/
theorem c7_support_le_resistance (t : String) (f : Frame)
    (h2 : 2 ≤ f.rows.length) (hc : f.hasClose = true)
    (hl : f.hasLow = true) (hh : f.hasHigh = true)
    (hgood : (tail10 f.rows).any (fun b => efLeB b.low b.high) = true) :
    ∃ r, processTicker t f = .ok r ∧
      r.support = efRound2 (seriesMin (tail10 (lowsOf f))) ∧
      r.resistance = efRound2 (seriesMax (tail10 (highsOf f))) ∧
      efLeB r.support r.resistance = true := by
  obtain ⟨b, hb, hlh⟩ := List.any_eq_true.mp hgood
  obtain ⟨a, c, hba, hbc, hac⟩ :
      ∃ a c, b.low = some a ∧ b.high = some c ∧ a ≤ c := by
    cases h1 : b.low with
    | none => rw [h1] at hlh; cases b.high <;> simp [efLeB] at hlh
    | some a =>
      cases h2h : b.high with
      | none => rw [h1, h2h] at hlh; simp [efLeB] at hlh
      | some c =>
        rw [h1, h2h] at hlh
        simp only [efLeB, decide_eq_true_eq] at hlh
        exact ⟨a, c, rfl, rfl, hlh⟩
  have hmemL : some a ∈ tail10 (lowsOf f) := by
    rw [tail10_lows]
    exact hba ▸ List.mem_map_of_mem _ hb
  have hmemH : some c ∈ tail10 (highsOf f) := by
    rw [tail10_highs]
    exact hbc ▸ List.mem_map_of_mem _ hb
  obtain ⟨m, hm, hma⟩ := seriesMin_le _ a hmemL
  obtain ⟨M, hM, hcM⟩ := le_seriesMax _ c hmemH
  refine ⟨rowOf t f, processTicker_ok t f h2 hc, ?_, ?_, ?_⟩
  · show efRound2 (supportOf f) = _
    unfold supportOf
    rw [if_pos hl]
  · show efRound2 (resistanceOf f) = _
    unfold resistanceOf
    rw [if_pos hh]
  · show efLeB (efRound2 (supportOf f)) (efRound2 (resistanceOf f)) = true
    unfold supportOf resistanceOf
    rw [if_pos hl, if_pos hh, hm, hM, efRound2_some, efRound2_some]
    simp only [efLeB, decide_eq_true_eq]
    exact pyRoundAt_mono 2 (le_trans hma (le_trans hac hcM))

/-- C7 witness: the theorem applied to the well-formed frame `frameLH`. -/
theorem c7_witness :
    ∃ r, processTicker tkA frameLH = .ok r ∧
      efLeB r.support r.resistance = true := by
  obtain ⟨r, hr, _, _, hle⟩ :=
    c7_support_le_resistance tkA frameLH (by with_unfolding_all decide) rfl
      rfl rfl (by with_unfolding_all decide)
  exact ⟨r, hr, hle⟩

/-- C8: an indicator asked for a window longer than the clean series
returns an entirely undefined (all-NaN) series, the aligned fast-EMA
column of such a frame is entirely undefined, and the analysis still
produces a result row rather than failing. -/
theorem c8_short_series_degrades (t : String) (f : Frame) :
    (∀ (s : List EF) (ic : IndClass) (w : Nat),
      (s.filterMap id).length < w →
      safe_indicator s ic w = List.replicate (s.filterMap id).length none) ∧
    (2 ≤ f.rows.length → f.hasClose = true →
      (((closesOf f).filterMap id).length < 20 →
        ∀ x ∈ emaFastCol f, x = none) ∧
      ∃ r, processTicker t f = .ok r) := by
  refine ⟨safe_indicator_short, fun h2 hc => ⟨fun hlt x hx => ?_, rowOf t f,
    processTicker_ok t f h2 hc⟩⟩
  unfold emaFastCol at hx
  rw [safe_indicator_short _ _ _ hlt] at hx
  exact alignToValid_all_none (closesOf f) _ x hx

/-- C8 witness: the theorem applied to `frame2up` (2 valid closes, fast
window 20), and to the one-element series against window 20. -/
theorem c8_witness :
    safe_indicator [some 1] IndClass.ema 20 = [none] ∧
    (∀ x ∈ emaFastCol frame2up, x = none) ∧
    (∃ r, processTicker tkA frame2up = .ok r) := by
  obtain ⟨hshort, hframe⟩ := c8_short_series_degrades tkA frame2up
  obtain ⟨hcol, hr⟩ := hframe (by with_unfolding_all decide) rfl
  exact ⟨(hshort [some 1] .ema 20 (by with_unfolding_all decide)).trans
      (by with_unfolding_all decide),
    hcol (by with_unfolding_all decide), hr⟩

/-- C9: a frame whose Low, High or Volume column is absent still analyzes
successfully; the corresponding field of the result row is exactly 0
(`ZOut.zero` for the smart-money score) and every other field is the same
as with the column present. -/
theorem c9_missing_column_defaults (t : String) (f : Frame)
    (h2 : 2 ≤ f.rows.length) (hc : f.hasClose = true) :
    ∃ r, processTicker t f = .ok r ∧
      processTicker t { f with hasLow := false } =
        .ok { r with support := some 0 } ∧
      processTicker t { f with hasHigh := false } =
        .ok { r with resistance := some 0 } ∧
      processTicker t { f with hasVolume := false } =
        .ok { r with smartMoney := .zero } := by
  have hz : efRound2 (some 0) = some 0 := by
    simp [efRound2, pyRoundAt_zero]
  refine ⟨rowOf t f, processTicker_ok t f h2 hc, ?_, ?_, ?_⟩
  · rw [processTicker_ok t { f with hasLow := false } h2 hc]
    congr 1
    unfold rowOf
    rw [show supportOf { f with hasLow := false } = some 0 from rfl, hz]
    rfl
  · rw [processTicker_ok t { f with hasHigh := false } h2 hc]
    congr 1
    unfold rowOf
    rw [show resistanceOf { f with hasHigh := false } = some 0 from rfl, hz]
    rfl
  · rw [processTicker_ok t { f with hasVolume := false } h2 hc]
    rfl

/-- C9 witness: the theorem applied to the full-column frame `frameLH`. -/
theorem c9_witness :
    ∃ r, processTicker tkA frameLH = .ok r ∧
      processTicker tkA { frameLH with hasVolume := false } =
        .ok { r with smartMoney := ZOut.zero } := by
  obtain ⟨r, hr, _, _, hv⟩ :=
    c9_missing_column_defaults tkA frameLH (by with_unfolding_all decide) rfl
  exact ⟨r, hr, hv⟩

/-- C10: `safe_indicator` is total — it always returns a series of the
clean length; when the wrapped indicator call fails, the returned series is
entirely NaN; and an indicator-layer outcome never makes `processTicker`
fail (a frame past the row-count and Close guards always yields a row). -/
theorem c10_safe_indicator_total :
    (∀ (s : List EF) (ic : IndClass) (w : Nat),
      (safe_indicator s ic w).length = (s.filterMap id).length) ∧
    (∀ (s : List EF) (ic : IndClass) (w : Nat),
      indCore ic w (s.filterMap id) = none →
      safe_indicator s ic w = List.replicate (s.filterMap id).length none) ∧
    (∀ (t : String) (f : Frame), 2 ≤ f.rows.length → f.hasClose = true →
      ∃ r, processTicker t f = .ok r) := by
  refine ⟨safe_indicator_length, fun s ic w hfail => ?_,
    fun t f h2 hc => ⟨rowOf t f, processTicker_ok t f h2 hc⟩⟩
  simp only [safe_indicator]
  split_ifs with h
  · rfl
  · rw [hfail]

/-- C10 witness: the degenerate window 0 makes the wrapped RSI call raise
(ZeroDivisionError on `1/window`), and `safe_indicator` still returns the
all-NaN series; `frameConst` passes the guards and yields a row. -/
theorem c10_witness :
    safe_indicator [some 1] IndClass.rsiInd 0 = [none] ∧
    (safe_indicator [some 1] IndClass.rsiInd 0).length = 1 ∧
    (∃ r, processTicker tkA frameConst = .ok r) := by
  obtain ⟨hlen, hfail, hok⟩ := c10_safe_indicator_total
  refine ⟨(hfail [some 1] .rsiInd 0 (by with_unfolding_all decide)).trans
      (by with_unfolding_all decide), ?_, hok tkA frameConst
      (by with_unfolding_all decide) rfl⟩
  rw [hlen [some 1] .rsiInd 0]
  with_unfolding_all decide

end AnalysisChart
